import Mathlib

/-
Verification of the `sna` crate (RFC 1982 serial number arithmetic).

The crate defines `SerialNumber<T>(pub T)` for the unsigned widths
T ∈ {u8, u16, u32, u64}, instantiated by the `uint_impl!` macro with the
bit width `$BITS`.  We embed the machine integers as `Nat` and pass the
bit width `W` explicitly to each width-parameterised operation; a raw
value of width `W` is a `Nat` below `2 ^ W`, and wrapping arithmetic is
an explicit `% 2 ^ W`.
-/

/-- Embeds `pub struct SerialNumber<T>(pub T)`: a newtype over the raw
unsigned integer, here a `Nat` whose width is tracked by the operations. -/
structure SerialNumber where
  raw : Nat
  deriving DecidableEq

namespace SerialNumber

/-- Embeds `macro_rules! uint_half { ($x:expr) => (1 << ($x-1)); }`. -/
def uintHalf (bits : Nat) : Nat := 1 <<< (bits - 1)

/-- Embeds `impl From<$T> for SerialNumber<$T>`: `SerialNumber(number)`. -/
def ofRaw (number : Nat) : SerialNumber := ⟨number⟩

/-- Embeds `impl From<SerialNumber<$T>> for $T`: `number.0`. -/
def toRaw (number : SerialNumber) : Nat := number.raw

/-- Embeds `impl Add for SerialNumber<$T>`:
`SerialNumber((Wrapping(self.0) + Wrapping(other.0)).0)`, where `Wrapping`
addition on a `$BITS`-bit unsigned integer is addition modulo `2 ^ $BITS`. -/
def add (W : Nat) (self other : SerialNumber) : SerialNumber :=
  ⟨(self.raw + other.raw) % 2 ^ W⟩

/-- Embeds `impl Add<$T> for SerialNumber<$T>`:
`SerialNumber((Wrapping(self.0) + Wrapping(other)).0)`. -/
def addRaw (W : Nat) (self : SerialNumber) (other : Nat) : SerialNumber :=
  ⟨(self.raw + other) % 2 ^ W⟩

/-- Embeds `impl Add<SerialNumber<$T>> for $T`: `other + self`. -/
def rawAdd (W : Nat) (self : Nat) (other : SerialNumber) : SerialNumber :=
  addRaw W other self

/-- Embeds `impl AddAssign for SerialNumber<$T>`: the new value bound to
`*self` by `*self = SerialNumber((Wrapping(self.0) + Wrapping(other.0)).0)`,
given as the returned state. -/
def addAssign (W : Nat) (self other : SerialNumber) : SerialNumber :=
  ⟨(self.raw + other.raw) % 2 ^ W⟩

/-- Embeds `impl AddAssign<$T> for SerialNumber<$T>`:
`*self = SerialNumber((Wrapping(self.0) + Wrapping(other)).0)`. -/
def addAssignRaw (W : Nat) (self : SerialNumber) (other : Nat) : SerialNumber :=
  ⟨(self.raw + other) % 2 ^ W⟩

/-- Embeds the `#[derive(PartialEq)]` equality on `SerialNumber<$T>`:
field-wise equality of the single raw field. -/
def beq (self other : SerialNumber) : Bool := self.raw == other.raw

/-- Embeds `impl PartialEq<$T> for SerialNumber<$T>`:
`self.eq(&SerialNumber(*other))`. -/
def beqRaw (self : SerialNumber) (other : Nat) : Bool :=
  beq self (SerialNumber.mk other)

/-- Embeds `impl PartialEq<SerialNumber<$T>> for $T`: `other.eq(self)`. -/
def rawBeq (self : Nat) (other : SerialNumber) : Bool := beqRaw other self

/-- Embeds `impl PartialOrd for SerialNumber<$T>`, the RFC 1982 comparison
(`fn partial_cmp`), with `None` the undefined outcome.  The Rust `-` on an
unsigned type is plain subtraction; each occurrence here is guarded by the
strict comparison conjoined before it, so Nat truncated subtraction agrees
with it on every path taken (theorem for C5 below makes the guard explicit). -/
def cmp (W : Nat) (self other : SerialNumber) : Option Ordering :=
  if self.raw = other.raw then
    some Ordering.eq
  else if (self.raw < other.raw ∧ other.raw - self.raw < uintHalf W) ∨
          (self.raw > other.raw ∧ self.raw - other.raw > uintHalf W) then
    some Ordering.lt
  else if (self.raw < other.raw ∧ other.raw - self.raw > uintHalf W) ∨
          (self.raw > other.raw ∧ self.raw - other.raw < uintHalf W) then
    some Ordering.gt
  else
    none

/-- Embeds `impl PartialOrd<$T> for SerialNumber<$T>`:
`self.partial_cmp(&SerialNumber(*other))`. -/
def cmpRaw (W : Nat) (self : SerialNumber) (other : Nat) : Option Ordering :=
  SerialNumber.cmp W self (SerialNumber.mk other)

/-- Embeds `impl PartialOrd<SerialNumber<$T>> for $T`:
`match other.partial_cmp(self) { Some(o) => Some(o.reverse()), None => None }`;
Rust `Ordering::reverse` is Lean `Ordering.swap`. -/
def rawCmp (W : Nat) (self : Nat) (other : SerialNumber) : Option Ordering :=
  match SerialNumber.cmp W other (SerialNumber.mk self) with
  | some ordering => some ordering.swap
  | none => none

/-- Checked subtraction: `none` models the overflow panic of a Rust
unsigned `-` when the subtrahend exceeds the minuend. -/
def checkedSub (a b : Nat) : Option Nat :=
  if b ≤ a then some (a - b) else none

/-- Short-circuit `||` in the `Option` (panic) monad: the right operand is
evaluated only when the left one evaluates to `false`. -/
def orElseSC (x y : Option Bool) : Option Bool := do
  let xb ← x
  if xb then pure true else y

/-- Short-circuit `a < b && (b - a) ⊕ half` with the subtraction checked:
mirrors one conjunct of the guards in `fn partial_cmp`, where `&&`
evaluates the subtraction only after the strict comparison succeeded. -/
def guardedDiff (p : Prop) [Decidable p] (hi lo : Nat) (test : Nat → Bool) :
    Option Bool :=
  if p then (checkedSub hi lo).map test else some false

/-- The body of `fn partial_cmp` with every unsigned subtraction checked:
an outer `none` models a panic; `some r` means the function returns `r`
without panicking. -/
def cmpChecked (W : Nat) (self other : SerialNumber) :
    Option (Option Ordering) := do
  if self.raw = other.raw then
    pure (some Ordering.eq)
  else
    let c1 ← orElseSC
      (guardedDiff (self.raw < other.raw) other.raw self.raw
        (fun d => decide (d < uintHalf W)))
      (guardedDiff (self.raw > other.raw) self.raw other.raw
        (fun d => decide (d > uintHalf W)))
    if c1 then pure (some Ordering.lt)
    else
      let c2 ← orElseSC
        (guardedDiff (self.raw < other.raw) other.raw self.raw
          (fun d => decide (d > uintHalf W)))
        (guardedDiff (self.raw > other.raw) self.raw other.raw
          (fun d => decide (d < uintHalf W)))
      if c2 then pure (some Ordering.gt) else pure none

/-- The ordering algorithm exactly as the spec's section 4.4 pseudocode
states it, written from the spec's words for comparison with `cmp`
(which is embedded from the source): `Equal` when the raws agree, else
branch on which raw is larger, take the plain difference `d` (inlined
here), and decide by comparing `d` with `HALF`, with `none` the
`Undefined` outcome. -/
def specCompare (W : Nat) (a b : SerialNumber) : Option Ordering :=
  if a.raw = b.raw then
    some Ordering.eq
  else if a.raw < b.raw then
    if b.raw - a.raw < uintHalf W then some Ordering.lt
    else if b.raw - a.raw > uintHalf W then some Ordering.gt
    else none
  else
    if a.raw - b.raw > uintHalf W then some Ordering.lt
    else if a.raw - b.raw < uintHalf W then some Ordering.gt
    else none

end SerialNumber

open SerialNumber

/-- Shared helper: the source's comparison equals the spec's pseudocode. -/
theorem cmp_eq_specCompare (W : Nat) (a b : SerialNumber) :
    SerialNumber.cmp W a b = specCompare W a b := by
  unfold SerialNumber.cmp specCompare
  split_ifs <;> first | rfl | (exfalso; omega)

/-- C1: for all widths and all pairs of serial values, the source's
comparison agrees with the spec's RFC 1982 pseudocode branch for branch:
`Equal` iff the raws are equal; for `a.raw < b.raw` with `d = b.raw - a.raw`
it is `Less` iff `d < HALF`, `Greater` iff `d > HALF`, and `Undefined`
(`none`) iff `d = HALF`; symmetrically for `a.raw > b.raw`; the exact-half
case is the distinct fourth outcome `none`, never any `some _`. -/
theorem c1_cmp_follows_rfc1982 (W : Nat) (a b : SerialNumber) :
    SerialNumber.cmp W a b = specCompare W a b ∧
    (SerialNumber.cmp W a b = some Ordering.eq ↔ a.raw = b.raw) ∧
    (a.raw < b.raw →
      ((SerialNumber.cmp W a b = some Ordering.lt ↔ b.raw - a.raw < uintHalf W) ∧
       (SerialNumber.cmp W a b = some Ordering.gt ↔ b.raw - a.raw > uintHalf W) ∧
       (SerialNumber.cmp W a b = none ↔ b.raw - a.raw = uintHalf W))) ∧
    (a.raw > b.raw →
      ((SerialNumber.cmp W a b = some Ordering.lt ↔ a.raw - b.raw > uintHalf W) ∧
       (SerialNumber.cmp W a b = some Ordering.gt ↔ a.raw - b.raw < uintHalf W) ∧
       (SerialNumber.cmp W a b = none ↔ a.raw - b.raw = uintHalf W))) := by
  refine ⟨cmp_eq_specCompare W a b, ?_, ?_, ?_⟩ <;>
    rw [cmp_eq_specCompare W a b] <;> unfold specCompare <;>
    split_ifs <;> simp <;> omega

/-- Witness for C1 at the spec's concrete scenario 5: width 8, raws 0 and
128 (distance exactly HALF = 128), where the comparison is `Undefined`. -/
theorem c1_witness :
    (0 : Nat) < 128 ∧ SerialNumber.cmp 8 ⟨0⟩ ⟨128⟩ = none :=
  ⟨by decide,
    ((c1_cmp_follows_rfc1982 8 ⟨0⟩ ⟨128⟩).2.2.1 (by decide)).2.2.mpr
      (by decide)⟩

/-- Shared helper: swapping the operands of the comparison swaps the
outcome (`Ordering.swap` under `Option.map`). -/
theorem snCmp_swap (W : Nat) (a b : SerialNumber) :
    SerialNumber.cmp W b a =
      Option.map Ordering.swap (SerialNumber.cmp W a b) := by
  unfold SerialNumber.cmp
  split_ifs <;> first | rfl | (exfalso; omega)

/-- C2: the comparison is the order-reversal of the comparison with the
operands swapped (`Less` iff `Greater` swapped, `Equal` and `Undefined`
fixed), and the raw-operand forms agree with the serial-vs-serial form:
the serial-vs-raw comparison wraps its raw operand, and the raw-vs-serial
comparison is the swapped serial-vs-raw comparison. -/
theorem c2_cmp_order_reversal (W : Nat) (a b : SerialNumber) (n : Nat) :
    (SerialNumber.cmp W a b = some Ordering.lt ↔
      SerialNumber.cmp W b a = some Ordering.gt) ∧
    (SerialNumber.cmp W a b = some Ordering.eq ↔
      SerialNumber.cmp W b a = some Ordering.eq) ∧
    (SerialNumber.cmp W a b = none ↔ SerialNumber.cmp W b a = none) ∧
    cmpRaw W a n = SerialNumber.cmp W a (ofRaw n) ∧
    rawCmp W n a =
      Option.map Ordering.swap (SerialNumber.cmp W a (ofRaw n)) := by
  refine ⟨?_, ?_, ?_, rfl, ?_⟩
  · rw [snCmp_swap W a b]
    rcases h : SerialNumber.cmp W a b with _ | o
    · simp [h]
    · cases o <;> simp [h, Ordering.swap]
  · rw [snCmp_swap W a b]
    rcases h : SerialNumber.cmp W a b with _ | o
    · simp [h]
    · cases o <;> simp [h, Ordering.swap]
  · rw [snCmp_swap W a b]
    rcases h : SerialNumber.cmp W a b with _ | o <;> simp [h]
  · unfold rawCmp ofRaw
    rcases h : SerialNumber.cmp W a (SerialNumber.mk n) with _ | o <;>
      simp [h]

/-- C3: the ordering is not transitive.  With width 8 and the documented
values 0, 128, 64: 128 is Greater than 64 and 64 is Greater than 0, yet
128 compared with 0 is not Greater (it is the Undefined outcome, the two
being exactly HALF apart). -/
theorem c3_not_transitive :
    SerialNumber.cmp 8 ⟨128⟩ ⟨64⟩ = some Ordering.gt ∧
    SerialNumber.cmp 8 ⟨64⟩ ⟨0⟩ = some Ordering.gt ∧
    SerialNumber.cmp 8 ⟨128⟩ ⟨0⟩ ≠ some Ordering.gt := by
  refine ⟨?_, ?_, ?_⟩ <;> decide

/-- C4: addition is raw addition modulo `2 ^ W` in every operand
combination (serial+serial, serial+raw, raw+serial), it never fails, and
`MAX + 1` wraps to `0`. -/
theorem c4_add_mod (W : Nat) (a b : SerialNumber) (n : Nat) :
    add W a b = ofRaw ((a.raw + b.raw) % 2 ^ W) ∧
    addRaw W a n = ofRaw ((a.raw + n) % 2 ^ W) ∧
    rawAdd W n a = ofRaw ((n + a.raw) % 2 ^ W) ∧
    add W (ofRaw (2 ^ W - 1)) (ofRaw 1) = ofRaw 0 := by
  refine ⟨rfl, rfl, ?_, ?_⟩
  · simp [rawAdd, addRaw, ofRaw, Nat.add_comm]
  · have h1 : 1 ≤ 2 ^ W := Nat.one_le_two_pow
    simp [add, ofRaw, Nat.sub_add_cancel h1, Nat.mod_self]

/-- C6: addition is commutative and operand-position independent: the
serial+serial form is commutative, and the serial+raw and raw+serial
forms agree with the serial+serial form on equal raw inputs. -/
theorem c6_add_comm (W : Nat) (a b : SerialNumber) (n : Nat) :
    add W a b = add W b a ∧
    addRaw W a n = add W a (ofRaw n) ∧
    rawAdd W n a = add W (ofRaw n) a := by
  refine ⟨?_, rfl, ?_⟩
  · simp [add, Nat.add_comm]
  · simp [rawAdd, addRaw, add, ofRaw, Nat.add_comm]

/-- C7: compound addition equals non-mutating addition: the state after
`+=` is exactly the result of `+` on the original operands, for both the
serial and the raw right-hand side. -/
theorem c7_add_assign_equiv (W : Nat) (a b : SerialNumber) (n : Nat) :
    addAssign W a b = add W a b ∧
    addAssignRaw W a n = addRaw W a n ∧
    addAssignRaw W a n = add W a (ofRaw n) :=
  ⟨rfl, rfl, rfl⟩

/-- C8: conversion round-trip: converting a raw integer to a serial value
and back is the identity, and the serial value built from `n` has raw
attribute exactly `n`; both conversions are total functions. -/
theorem c8_roundtrip (n : Nat) :
    toRaw (ofRaw n) = n ∧ (ofRaw n).raw = n :=
  ⟨rfl, rfl⟩

/-- C9: equality is plain value equality: true iff the raws are equal,
with the serial-vs-raw and raw-vs-serial forms agreeing with the
serial-vs-serial form; the relation is symmetric and reflexive. -/
theorem c9_eq_plain (a b : SerialNumber) (n : Nat) :
    (beq a b = true ↔ a.raw = b.raw) ∧
    beqRaw a n = beq a (ofRaw n) ∧
    rawBeq n a = beq (ofRaw n) a ∧
    beq a b = beq b a ∧
    beq a a = true := by
  refine ⟨?_, rfl, ?_, ?_, ?_⟩
  · simp [beq]
  · by_cases h : a.raw = n
    · simp [rawBeq, beqRaw, beq, ofRaw, h]
    · simp [rawBeq, beqRaw, beq, ofRaw, h]
      exact fun hn => h hn.symm
  · by_cases h : a.raw = b.raw
    · simp [beq, h]
    · simp [beq, h]
      exact fun hn => h hn.symm
  · simp [beq]

/-- C10: wrapping addition is associative, and `ofRaw 0` is a two-sided
identity on every in-range serial value (raw below `2 ^ W`). -/
theorem c10_assoc_identity (W : Nat) (a b c : SerialNumber) :
    add W (add W a b) c = add W a (add W b c) ∧
    (a.raw < 2 ^ W →
      add W a (ofRaw 0) = a ∧ add W (ofRaw 0) a = a) := by
  constructor
  · simp [add, Nat.mod_add_mod, Nat.add_mod_mod, Nat.add_assoc]
  · intro ha
    constructor
    · simp [add, ofRaw, Nat.mod_eq_of_lt ha]
    · simp [add, ofRaw, Nat.mod_eq_of_lt ha]

/-- Witness for C10 at width 8 with raw 3: the in-range hypothesis holds
and both identity equations follow from the theorem. -/
theorem c10_witness :
    SerialNumber.raw ⟨3⟩ < 2 ^ 8 ∧
    (add 8 ⟨3⟩ (ofRaw 0) = ⟨3⟩ ∧ add 8 (ofRaw 0) ⟨3⟩ = ⟨3⟩) :=
  ⟨by decide, (c10_assoc_identity 8 ⟨3⟩ ⟨0⟩ ⟨0⟩).2 (by decide)⟩

/-- C5: the ordering comparison never panics: evaluating the body of the
comparison with every unsigned subtraction checked (underflow surfacing
as the outer `none`) always succeeds, and returns exactly the comparison
result; each subtraction is guarded by the strict comparison conjoined
before it, so no underflow is reachable.  The other operations
(conversion, addition, compound addition, equality, formatting) are plain
total functions of their operands with no other fallible primitive. -/
theorem c5_cmp_never_panics (W : Nat) (a b : SerialNumber) :
    cmpChecked W a b = some (SerialNumber.cmp W a b) := by
  unfold cmpChecked SerialNumber.cmp orElseSC guardedDiff checkedSub
  rcases Nat.lt_trichotomy a.raw b.raw with h | h | h
  · have h1 : ¬ a.raw = b.raw := Nat.ne_of_lt h
    have h2 : ¬ a.raw > b.raw := by omega
    have h3 : a.raw ≤ b.raw := Nat.le_of_lt h
    simp [h, h1, h2, h3]
    by_cases hlt : b.raw - a.raw < uintHalf W
    · simp [hlt, h]
    · by_cases hgt : b.raw - a.raw > uintHalf W <;> simp [hlt, hgt, h]
  · simp [h]
  · have h1 : ¬ a.raw = b.raw := by omega
    have h2 : ¬ a.raw < b.raw := by omega
    have h3 : b.raw ≤ a.raw := Nat.le_of_lt h
    simp [h, h1, h2, h3]
    by_cases hlt : a.raw - b.raw > uintHalf W
    · simp [hlt, h]
    · by_cases hgt : a.raw - b.raw < uintHalf W <;> simp [hlt, hgt, h]
